import Mathlib

/-!
Verification of the bip300301 JSON-RPC client schema (src/client.rs):
codec primitives (hex, reversed hex, compact target, decimal amount),
tagged commitment record decoding, and the verbosity-polymorphic
response resolution tables.

Wire JSON is modelled by a small inductive type; each serde decoder of
the source is embedded as a function from that type (or from strings,
for string-level codecs) into an Option of the domain type.
-/
/-- Value of a hex digit character (0-9, a-f, A-F); 16 marks a non-hex
character. This is the digit set accepted by the hex decoding used in the
client (the hex crate and u32 from_str_radix both accept mixed case). -/
def hexDigitVal (c : Char) : Nat :=
  if 48 ≤ c.toNat ∧ c.toNat ≤ 57 then c.toNat - 48
  else if 97 ≤ c.toNat ∧ c.toNat ≤ 102 then c.toNat - 87
  else if 65 ≤ c.toNat ∧ c.toNat ≤ 70 then c.toNat - 55
  else 16

/-- Whether a character is a hex digit (0-9, a-f, A-F). -/
def isHexDigitChar (c : Char) : Bool := hexDigitVal c < 16

/-- Lowercase hex digit character for a value below 16. This is the digit
alphabet produced by the hex crate's encoding (lowercase). -/
def hexDigitChar (n : Nat) : Char :=
  if n < 10 then Char.ofNat (48 + n) else Char.ofNat (87 + n)

/-- ASCII case normalization of a string (Char.toLower on every char). -/
def lowerStr (s : String) : String := String.mk (s.data.map Char.toLower)

/-- Hex decoding of a character list into bytes: pairs of hex digits, most
significant first; fails on odd length or any non-hex character. This is
the decode performed by the hex crate (hex::decode, hex::serde::deserialize,
FromHex) in src/client.rs. -/
def hexDecodeList : List Char → Option (List Nat)
  | [] => some []
  | [_] => none
  | c1 :: c2 :: rest =>
    if isHexDigitChar c1 && isHexDigitChar c2 then
      (hexDecodeList rest).map fun bs => (hexDigitVal c1 * 16 + hexDigitVal c2) :: bs
    else none

/-- Lowercase hex encoding of a byte list (hex::encode). -/
def hexEncodeList : List Nat → List Char
  | [] => []
  | b :: bs => hexDigitChar (b / 16) :: hexDigitChar (b % 16) :: hexEncodeList bs

/-- Lowercase hex encoding of a byte list, as a string (hex::encode). -/
def hexEncode (bs : List Nat) : String := String.mk (hexEncodeList bs)

/-- Hex decoding of a string into bytes (hex::decode). -/
def hexDecode (s : String) : Option (List Nat) := hexDecodeList s.data

/-- FromHex for a fixed 32-byte array: hex-decode and check that exactly
32 bytes were produced (hex::FromHex for u8 32-arrays). -/
def fromHex32 (s : String) : Option (List Nat) :=
  match hexDecode s with
  | some bs => if bs.length = 32 then some bs else none
  | none => none

/-- deserialize_reverse_hex in src/client.rs, for a 32-byte target type:
hex-decode the string into a byte vector, reverse it in place, then run
FromHex on the re-encoded bytes (which fails when the decoded length is
not the expected width of 32). -/
def deserializeReverseHex32 (s : String) : Option (List Nat) :=
  match hexDecode s with
  | none => none
  | some bytes => fromHex32 (hexEncode bytes.reverse)

/-- Modelled from the spec: the serialization direction of the reversed-hex
codec, which src/client.rs does not implement (the commitment types only
derive Deserialize). The spec defines encode as reverse-then-hex-encode,
the inverse of deserialize_reverse_hex. -/
def reverseHexEncode (bs : List Nat) : String := hexEncode bs.reverse

/-- Radix-16 accumulation step of u32::from_str_radix: reject an empty
digit string or a non-hex digit, accumulate most-significant first, and
fail on overflow past u32::MAX. -/
def u32Accum (ds : List Char) : Option Nat :=
  if ds = [] then none
  else if ds.all isHexDigitChar then
    if ds.foldl (fun a c => a * 16 + hexDigitVal c) 0 < 4294967296 then
      some (ds.foldl (fun a c => a * 16 + hexDigitVal c) 0)
    else none
  else none

/-- u32::from_str_radix with radix 16: an optional leading plus sign, then
one or more hex digits. -/
def u32FromHexDigits (cs : List Char) : Option Nat :=
  u32Accum (if cs.head? = some '+' then cs.tail else cs)

/-- CompactTarget::from_unprefixed_hex, reached through CompactTargetRepr's
FromStr impl in src/client.rs: reject a hex prefix (0x or 0X), then parse
the string as a radix-16 u32 packed value. -/
def fromUnprefixedHex (s : String) : Option Nat :=
  if s.data.take 2 = ['0', 'x'] ∨ s.data.take 2 = ['0', 'X'] then none
  else u32FromHexDigits s.data

/-- Big-endian byte rendering of a u32 (u32::to_be_bytes). -/
def u32BeBytes (n : Nat) : List Nat :=
  [n / 16777216 % 256, n / 65536 % 256, n / 256 % 256, n % 256]

/-- Serialize for CompactTargetRepr in src/client.rs: lowercase hex encoding
of the big-endian bytes of the packed consensus u32. -/
def serializeCompactTarget (n : Nat) : String := hexEncode (u32BeBytes n)

/-- Wire JSON values (serde_json::Value restricted to the integer numbers
consumed by the embedded decoders). -/
inductive Json where
  | null
  | bool (b : Bool)
  | num (n : Int)
  | str (s : String)
  | arr (items : List Json)
  | obj (fields : List (String × Json))

/-- First binding of a key in a JSON object's field list. -/
def lookupField : List (String × Json) → String → Option Json
  | [], _ => none
  | (k, v) :: rest, key => if k = key then some v else lookupField rest key

/-- Decode a JSON value as a u32 (serde u32 deserialization). -/
def asU32 : Json → Option Nat
  | .num n => if 0 ≤ n ∧ n < 4294967296 then some n.toNat else none
  | _ => none

/-- Decode a JSON value as a u8 (serde u8 deserialization, the transparent
SidechainId newtype of src/client.rs). -/
def asU8 : Json → Option Nat
  | .num n => if 0 ≤ n ∧ n < 256 then some n.toNat else none
  | _ => none

/-- Decode a JSON value as an i32 (bitcoin block::Version deserialization). -/
def asI32 : Json → Option Int
  | .num n => if -2147483648 ≤ n ∧ n < 2147483648 then some n else none
  | _ => none

/-- Decode a JSON value as a string. -/
def asStr : Json → Option String
  | .str s => some s
  | _ => none

/-- monostate MustBe for a u8 literal: deserialization succeeds exactly on
the wire number equal to the literal and fails on every other value. -/
def mustBeU8 (lit : Nat) : Json → Option Unit
  | .num n => if n = (lit : Int) then some () else none
  | _ => none

/-- Deserialize impl for U8Witness 0 in src/client.rs (MustBe 0). -/
def deserializeU8Witness0 : Json → Option Unit := mustBeU8 0

/-- Deserialize impl for U8Witness 1 in src/client.rs (MustBe 1). -/
def deserializeU8Witness1 : Json → Option Unit := mustBeU8 1

/-- Deserialize impl for U8Witness 2 in src/client.rs (MustBe 2). -/
def deserializeU8Witness2 : Json → Option Unit := mustBeU8 2

/-- monostate MustBe for a bool literal (the BoolWitness and
GetRawTransactionVerbose deserialization impls of src/client.rs). -/
def mustBeBool (lit : Bool) : Json → Option Unit
  | .bool b => if b = lit then some () else none
  | _ => none

/-- The response shapes getblock can resolve to. -/
inductive GetBlockResponseType where
  | consensusEncodedBlock
  | richBlock
deriving DecidableEq

/-- The GetBlockVerbosity impls of src/client.rs as a value-level table:
U8Witness 0 resolves to ConsensusEncoded Block (the consensus-binary block,
hex-decoded through the consensus codec), U8Witness 1 resolves to the rich
Block object; no other witness value has an impl. -/
def getBlockVerbosityResponse : Nat → Option GetBlockResponseType
  | 0 => some .consensusEncodedBlock
  | 1 => some .richBlock
  | _ => none

/-- The response shapes getrawmempool can resolve to. -/
inductive RawMempoolResponseType where
  | txidList
  | txidListWithSequence
  | txidToDetailMap
deriving DecidableEq

/-- The GetRawMempoolResponse impls of src/client.rs as a value-level table
over (verbose, mempool_sequence) witness pairs: (false, false) resolves to
Vec Txid, (false, true) to RawMempoolWithSequence, (true, false) to
RawMempoolVerbose; the (true, true) pair has no impl. -/
def getRawMempoolResponse : Bool → Bool → Option RawMempoolResponseType
  | false, false => some .txidList
  | false, true => some .txidListWithSequence
  | true, false => some .txidToDetailMap
  | true, true => none

/-- The closed union of commitment record variants returned by
getblockcommitments (BlockCommitment in src/client.rs). Byte arrays are
byte lists, SidechainId is its underlying u8. -/
inductive BlockCommitment where
  | bmmHStar (commitment : List Nat) (sidechain_id : Nat) (prev_bytes : List Nat)
  | scdbUpdateBytes (script : String)
  | sidechainActivationAck (commitment : List Nat)
  | sidechainProposal
  | withdrawalBundleHash (commitment : List Nat) (sidechain_id : Nat)
  | witnessCommitment (script : String)
deriving DecidableEq

/-- FromHex for a fixed 4-byte array: plain hex decode of the prevbytes
field (hex::serde::deserialize into a u8 4-array). -/
def fromHex4 (s : String) : Option (List Nat) :=
  match hexDecode s with
  | some bs => if bs.length = 4 then some bs else none
  | none => none

/-- Decode one commitment record from its object fields: read the type
discriminant first, then branch into exactly one variant decoder; a
discriminant outside the closed set is an unknown-variant decode error. -/
def decodeBlockCommitment (fields : List (String × Json)) :
    Option BlockCommitment := do
  let tagJson ← lookupField fields "type"
  let tag ← asStr tagJson
  if tag = "BMM h*" then
    let hJson ← lookupField fields "h"
    let hs ← asStr hJson
    let commitment ← deserializeReverseHex32 hs
    let sidJson ← lookupField fields "nsidechain"
    let sid ← asU8 sidJson
    let pJson ← lookupField fields "prevbytes"
    let ps ← asStr pJson
    let prevBytes ← fromHex4 ps
    pure (.bmmHStar commitment sid prevBytes)
  else if tag = "SCDB update bytes" then
    let sJson ← lookupField fields "script"
    let script ← asStr sJson
    pure (.scdbUpdateBytes script)
  else if tag = "Sidechain activation ack" then
    let hJson ← lookupField fields "hash"
    let hs ← asStr hJson
    let commitment ← deserializeReverseHex32 hs
    pure (.sidechainActivationAck commitment)
  else if tag = "Sidechain proposal" then
    pure .sidechainProposal
  else if tag = "Withdrawal bundle hash" then
    let hJson ← lookupField fields "hash"
    let hs ← asStr hJson
    let commitment ← deserializeReverseHex32 hs
    let sidJson ← lookupField fields "nsidechain"
    let sid ← asU8 sidJson
    pure (.withdrawalBundleHash commitment sid)
  else if tag = "Witness commitment" then
    let sJson ← lookupField fields "script"
    let script ← asStr sJson
    pure (.witnessCommitment script)
  else none

/-- Order-preserving elementwise decode of a record list; any element
failure fails the whole decode (Vec deserialization). -/
def optMapM {α β : Type} (f : α → Option β) : List α → Option (List β)
  | [] => some []
  | x :: xs =>
    match f x with
    | none => none
    | some y => (optMapM f xs).map (y :: ·)

/-- Decode one element of the getblockcommitments array: the Repr struct in
src/client.rs reads the txout index and the flattened commitment from the
same object, then converts to a (txout, commitment) pair. -/
def decodeCommitmentEntry : Json → Option (Nat × BlockCommitment)
  | .obj fields => do
    let txoutJson ← lookupField fields "txout"
    let txout ← asU32 txoutJson
    let commitment ← decodeBlockCommitment fields
    pure (txout, commitment)
  | _ => none

/-- BlockCommitments deserialization in src/client.rs: the wire array of
tagged records decoded elementwise into ordered (txout, commitment) pairs. -/
def decodeBlockCommitments : Json → Option (List (Nat × BlockCommitment))
  | .arr items => optMapM decodeCommitmentEntry items
  | _ => none

/-- The C7 example array: a Sidechain proposal record at txout 2 followed
by a Witness commitment record at txout 0. -/
def commitmentExampleItems : List Json :=
  [Json.obj [("txout", Json.num 2), ("type", Json.str "Sidechain proposal")],
   Json.obj [("txout", Json.num 0), ("type", Json.str "Witness commitment"),
     ("script", Json.str "6a24...")]]

/-- Decimal digit character for a value below 10. -/
def decDigitChar (n : Nat) : Char := Char.ofNat (48 + n)

/-- Fuel-based most-significant-first decimal digit rendering. -/
def natDecDigitsAux : Nat → Nat → List Char → List Char
  | 0, _, acc => acc
  | fuel + 1, n, acc =>
    if n < 10 then decDigitChar n :: acc
    else natDecDigitsAux fuel (n / 10) (decDigitChar (n % 10) :: acc)

/-- Decimal digits of a Nat, most significant first; 20 digits of fuel
cover every u64 value. -/
def natDecDigits (n : Nat) : List Char := natDecDigitsAux 20 n []

/-- Value of a nonempty all-decimal-digit character list. -/
def decDigitsVal (cs : List Char) : Option Nat :=
  if cs ≠ [] ∧ cs.all Char.isDigit then
    some (cs.foldl (fun a c => a * 10 + (c.toNat - 48)) 0)
  else none

/-- Modelled from the spec: the decimal-amount codec's encode direction for
the AmountBtc wrapper of src/client.rs. The codec implementation lives in
the external bitcoin crate (amount serde as_btc), outside src/; the spec
specifies a fixed-point decimal BTC string with 8 fractional digits for an
integer satoshi amount. -/
def satsToBtcString (sats : Nat) : String :=
  let whole := natDecDigits (sats / 100000000)
  let frac := natDecDigits (sats % 100000000)
  String.mk (whole ++ '.' :: (List.replicate (8 - frac.length) '0' ++ frac))

/-- Modelled from the spec: the decimal-amount codec's decode direction for
the AmountBtc wrapper of src/client.rs (implementation in the external
bitcoin crate, outside src/): parse a fixed-point decimal BTC string with
at most 8 fractional digits into integer satoshis, rejecting more
fractional digits than the smallest unit supports. -/
def btcStringToSats (s : String) : Option Nat :=
  match s.data.splitOn '.' with
  | [whole] => (decDigitsVal whole).map (· * 100000000)
  | [whole, frac] =>
    if frac.length ≤ 8 then
      match decDigitsVal whole, decDigitsVal frac with
      | some w, some f => some (w * 100000000 + f * 10 ^ (8 - frac.length))
      | _, _ => none
    else none
  | _ => none

/-- Decoded getblockheader response (Header in src/client.rs); hashes are
32-byte lists in internal storage order. -/
structure Header where
  hash : List Nat
  height : Nat
  version : Int
  prev_blockhash : List Nat
  merkle_root : List Nat
  time : Nat
  bits : Nat
  nonce : Nat
deriving DecidableEq

/-- serde for bitcoin 32-byte hash types (BlockHash, TxMerkleNode): parse a
64-char hex string and reverse the bytes into internal order (hashes are
displayed backwards). -/
def asHash256 (j : Json) : Option (List Nat) := do
  let s ← asStr j
  let bs ← hexDecode s
  if bs.length = 32 then pure bs.reverse else none

/-- BlockHash::all_zeros, the serde default for prev_blockhash. -/
def allZerosHash : List Nat := List.replicate 32 0

/-- serde for the bits field: FromInto CompactTargetRepr, which parses the
wire string with CompactTarget::from_unprefixed_hex. -/
def asCompactTarget (j : Json) : Option Nat := do
  let s ← asStr j
  fromUnprefixedHex s

/-- Deserialize for Header in src/client.rs: every field is required except
previousblockhash, which defaults to the all-zeros hash when absent. -/
def decodeHeader (fields : List (String × Json)) : Option Header := do
  let hash ← lookupField fields "hash" >>= asHash256
  let height ← lookupField fields "height" >>= asU32
  let version ← lookupField fields "version" >>= asI32
  let prev ← match lookupField fields "previousblockhash" with
    | none => pure allZerosHash
    | some v => asHash256 v
  let merkle ← lookupField fields "merkleroot" >>= asHash256
  let time ← lookupField fields "time" >>= asU32
  let bits ← lookupField fields "bits" >>= asCompactTarget
  let nonce ← lookupField fields "nonce" >>= asU32
  pure (Header.mk hash height version prev merkle time bits nonce)

/-- A complete getblockheader response object except previousblockhash
(the genesis header shape). -/
def headerExampleFields : List (String × Json) :=
  [("hash", Json.str (hexEncode (List.range 32))),
   ("height", Json.num 0),
   ("version", Json.num 1),
   ("merkleroot", Json.str (hexEncode (List.range 32))),
   ("time", Json.num 1231006505),
   ("bits", Json.str "1d00ffff"),
   ("nonce", Json.num 2083236893)]

/-- Remove every binding of a key from an object's field list. -/
def removeField (key : String) (fields : List (String × Json)) :
    List (String × Json) :=
  fields.filter fun kv => kv.1 != key

theorem hexDigitVal_lt_16 {c : Char} (h : isHexDigitChar c = true) :
    hexDigitVal c < 16 := by
  simpa [isHexDigitChar] using h

theorem hexDigitChar_hexDigitVal {c : Char} (h : isHexDigitChar c = true) :
    hexDigitChar (hexDigitVal c) = c.toLower := by
  have h' : hexDigitVal c < 16 := hexDigitVal_lt_16 h
  unfold hexDigitVal at h' ⊢
  unfold hexDigitChar
  simp only [Char.toLower, Char.ofNat_toNat]
  by_cases h1 : 48 ≤ c.toNat ∧ c.toNat ≤ 57
  · rw [if_pos h1] at h' ⊢
    rw [if_pos (by omega), if_neg (by omega)]
    have e : 48 + (c.toNat - 48) = c.toNat := by omega
    rw [e, Char.ofNat_toNat]
  · rw [if_neg h1] at h' ⊢
    by_cases h2 : 97 ≤ c.toNat ∧ c.toNat ≤ 102
    · rw [if_pos h2] at h' ⊢
      rw [if_neg (by omega), if_neg (by omega)]
      have e : 87 + (c.toNat - 87) = c.toNat := by omega
      rw [e, Char.ofNat_toNat]
    · rw [if_neg h2] at h' ⊢
      by_cases h3 : 65 ≤ c.toNat ∧ c.toNat ≤ 70
      · rw [if_pos h3] at h' ⊢
        rw [if_neg (by omega), if_pos (by omega)]
        congr 1
        omega
      · rw [if_neg h3] at h'
        omega

theorem hexDigitVal_hexDigitChar {n : Nat} (h : n < 16) :
    hexDigitVal (hexDigitChar n) = n := by
  interval_cases n <;> decide

theorem isHexDigitChar_hexDigitChar {n : Nat} (h : n < 16) :
    isHexDigitChar (hexDigitChar n) = true := by
  interval_cases n <;> decide

theorem hexDecodeList_hexEncodeList {bs : List Nat} (h : ∀ b ∈ bs, b < 256) :
    hexDecodeList (hexEncodeList bs) = some bs := by
  induction bs with
  | nil => rfl
  | cons b bs ih =>
    have hb : b < 256 := h b (List.mem_cons_self ..)
    have h16a : b / 16 < 16 := by omega
    have h16b : b % 16 < 16 := by omega
    have ih' := ih fun x hx => h x (List.mem_cons_of_mem _ hx)
    simp [hexEncodeList, hexDecodeList, isHexDigitChar_hexDigitChar h16a,
      isHexDigitChar_hexDigitChar h16b, hexDigitVal_hexDigitChar h16a,
      hexDigitVal_hexDigitChar h16b, ih']
    omega

theorem hexDecode_hexEncode {bs : List Nat} (h : ∀ b ∈ bs, b < 256) :
    hexDecode (hexEncode bs) = some bs := by
  simpa [hexDecode, hexEncode] using hexDecodeList_hexEncodeList h

theorem hexDecodeList_lt : ∀ (cs : List Char) (bs : List Nat),
    hexDecodeList cs = some bs → ∀ b ∈ bs, b < 256
  | [], _, h => by
    simp only [hexDecodeList, Option.some.injEq] at h
    subst h
    intro b hb
    cases hb
  | [_], _, h => by simp [hexDecodeList] at h
  | c1 :: c2 :: rest, bs, h => by
    simp only [hexDecodeList] at h
    by_cases hc : (isHexDigitChar c1 && isHexDigitChar c2) = true
    · rw [if_pos hc] at h
      rcases Option.map_eq_some'.mp h with ⟨tail, htail, rfl⟩
      rw [Bool.and_eq_true] at hc
      have hc1 : hexDigitVal c1 < 16 := hexDigitVal_lt_16 hc.1
      have hc2 : hexDigitVal c2 < 16 := hexDigitVal_lt_16 hc.2
      intro b hb
      rcases List.mem_cons.mp hb with rfl | hb'
      · omega
      · exact hexDecodeList_lt rest tail htail b hb'
    · rw [if_neg hc] at h
      cases h

theorem hexDecode_lt {s : String} {bs : List Nat}
    (h : hexDecode s = some bs) : ∀ b ∈ bs, b < 256 :=
  hexDecodeList_lt s.data bs h

theorem deserializeReverseHex32_some {s : String} {bs : List Nat}
    (h : hexDecode s = some bs) (hlen : bs.length = 32) :
    deserializeReverseHex32 s = some bs.reverse := by
  have hlt : ∀ b ∈ bs.reverse, b < 256 := by
    intro b hb
    exact hexDecode_lt h b (List.mem_reverse.mp hb)
  unfold deserializeReverseHex32
  rw [h]
  show fromHex32 (hexEncode bs.reverse) = some bs.reverse
  unfold fromHex32
  rw [hexDecode_hexEncode hlt]
  simp [hlen]

/-- C4: decoding with the reversed-hex codec the reversed-hex encoding of any
32-byte array returns the original array, and the decoder fails whenever the
hex-decoded byte vector does not have the expected width of 32. -/
theorem reverse_hex_round_trip :
    (∀ bs : List Nat, bs.length = 32 → (∀ b ∈ bs, b < 256) →
      deserializeReverseHex32 (reverseHexEncode bs) = some bs) ∧
    (∀ (s : String) (bs : List Nat), hexDecode s = some bs → bs.length ≠ 32 →
      deserializeReverseHex32 s = none) := by
  constructor
  · intro bs hlen hlt
    have hlt' : ∀ b ∈ bs.reverse, b < 256 := by
      intro b hb
      exact hlt b (List.mem_reverse.mp hb)
    have hdec : hexDecode (reverseHexEncode bs) = some bs.reverse :=
      hexDecode_hexEncode hlt'
    have := deserializeReverseHex32_some hdec (by simpa using hlen)
    simpa using this
  · intro s bs h hlen
    have hlt : ∀ b ∈ bs.reverse, b < 256 := by
      intro b hb
      exact hexDecode_lt h b (List.mem_reverse.mp hb)
    unfold deserializeReverseHex32
    rw [h]
    show fromHex32 (hexEncode bs.reverse) = none
    unfold fromHex32
    rw [hexDecode_hexEncode hlt]
    simp [hlen]

/-- Witness for C4: a concrete 32-byte array round-trips, and a 1-byte hex
string is rejected by the 32-byte reversed-hex decoder. -/
theorem reverse_hex_round_trip_witness :
    deserializeReverseHex32 (reverseHexEncode (List.range 32)) =
        some (List.range 32) ∧
    deserializeReverseHex32 "00" = none :=
  ⟨reverse_hex_round_trip.1 (List.range 32) (by decide) (by decide),
   reverse_hex_round_trip.2 "00" [0] (by decide) (by decide)⟩

theorem u32Digits_ext (n a0 a1 a2 a3 a4 a5 a6 a7 : Nat)
    (hn : n = (((((((0 * 16 + a0) * 16 + a1) * 16 + a2) * 16 + a3) * 16 + a4)
        * 16 + a5) * 16 + a6) * 16 + a7)
    (b0 : a0 < 16) (b1 : a1 < 16) (b2 : a2 < 16) (b3 : a3 < 16)
    (b4 : a4 < 16) (b5 : a5 < 16) (b6 : a6 < 16) (b7 : a7 < 16) :
    n < 4294967296 ∧
    n / 16777216 % 256 / 16 = a0 ∧ n / 16777216 % 256 % 16 = a1 ∧
    n / 65536 % 256 / 16 = a2 ∧ n / 65536 % 256 % 16 = a3 ∧
    n / 256 % 256 / 16 = a4 ∧ n / 256 % 256 % 16 = a5 ∧
    n % 256 / 16 = a6 ∧ n % 256 % 16 = a7 := by
  subst hn
  refine ⟨by omega, by omega, by omega, by omega, by omega, by omega,
    by omega, by omega, by omega⟩

theorem compactTarget_round_trip_aux (c0 c1 c2 c3 c4 c5 c6 c7 : Char)
    (h0 : isHexDigitChar c0 = true) (h1 : isHexDigitChar c1 = true)
    (h2 : isHexDigitChar c2 = true) (h3 : isHexDigitChar c3 = true)
    (h4 : isHexDigitChar c4 = true) (h5 : isHexDigitChar c5 = true)
    (h6 : isHexDigitChar c6 = true) (h7 : isHexDigitChar c7 = true) :
    (fromUnprefixedHex (String.mk [c0, c1, c2, c3, c4, c5, c6, c7])).map
        serializeCompactTarget
      = some (lowerStr (String.mk [c0, c1, c2, c3, c4, c5, c6, c7])) := by
  have hx : c1 ≠ 'x' := by
    intro e; rw [e] at h1; exact absurd h1 (by decide)
  have hX : c1 ≠ 'X' := by
    intro e; rw [e] at h1; exact absurd h1 (by decide)
  have hp : c0 ≠ '+' := by
    intro e; rw [e] at h0; exact absurd h0 (by decide)
  unfold fromUnprefixedHex
  rw [if_neg ?hpre]
  case hpre =>
    rintro (hc | hc)
    · have : c0 = '0' ∧ c1 = 'x' := by simpa [List.take] using hc
      exact hx this.2
    · have : c0 = '0' ∧ c1 = 'X' := by simpa [List.take] using hc
      exact hX this.2
  show (u32FromHexDigits [c0, c1, c2, c3, c4, c5, c6, c7]).map
      serializeCompactTarget = _
  unfold u32FromHexDigits
  rw [if_neg (by simp [hp])]
  unfold u32Accum
  rw [if_neg (by simp)]
  rw [if_pos (by simp [h0, h1, h2, h3, h4, h5, h6, h7])]
  simp only [List.foldl]
  obtain ⟨hlt32, e0, e1, e2, e3, e4, e5, e6, e7⟩ :=
    u32Digits_ext _ (hexDigitVal c0) (hexDigitVal c1) (hexDigitVal c2)
      (hexDigitVal c3) (hexDigitVal c4) (hexDigitVal c5) (hexDigitVal c6)
      (hexDigitVal c7) rfl
      (hexDigitVal_lt_16 h0) (hexDigitVal_lt_16 h1) (hexDigitVal_lt_16 h2)
      (hexDigitVal_lt_16 h3) (hexDigitVal_lt_16 h4) (hexDigitVal_lt_16 h5)
      (hexDigitVal_lt_16 h6) (hexDigitVal_lt_16 h7)
  rw [if_pos hlt32]
  simp only [Option.map_some']
  unfold serializeCompactTarget u32BeBytes hexEncode lowerStr
  simp only [hexEncodeList, List.map]
  rw [e0, e1, e2, e3, e4, e5, e6, e7,
    hexDigitChar_hexDigitVal h0, hexDigitChar_hexDigitVal h1,
    hexDigitChar_hexDigitVal h2, hexDigitChar_hexDigitVal h3,
    hexDigitChar_hexDigitVal h4, hexDigitChar_hexDigitVal h5,
    hexDigitChar_hexDigitVal h6, hexDigitChar_hexDigitVal h7]

/-- C5: for every valid width-8 compact-target hex string, decoding it to a
compact target and re-encoding reproduces the original string exactly up to
case normalization. -/
theorem compact_target_round_trip (s : String) (h8 : s.length = 8)
    (hhex : s.data.all isHexDigitChar = true) :
    (fromUnprefixedHex s).map serializeCompactTarget = some (lowerStr s) := by
  obtain ⟨cs⟩ := s
  have hlen : cs.length = 8 := h8
  have hhex' : cs.all isHexDigitChar = true := hhex
  clear h8 hhex
  rcases cs with _ | ⟨c0, cs⟩
  · simp only [List.length_nil] at hlen; omega
  rcases cs with _ | ⟨c1, cs⟩
  · simp only [List.length_cons, List.length_nil] at hlen; omega
  rcases cs with _ | ⟨c2, cs⟩
  · simp only [List.length_cons, List.length_nil] at hlen; omega
  rcases cs with _ | ⟨c3, cs⟩
  · simp only [List.length_cons, List.length_nil] at hlen; omega
  rcases cs with _ | ⟨c4, cs⟩
  · simp only [List.length_cons, List.length_nil] at hlen; omega
  rcases cs with _ | ⟨c5, cs⟩
  · simp only [List.length_cons, List.length_nil] at hlen; omega
  rcases cs with _ | ⟨c6, cs⟩
  · simp only [List.length_cons, List.length_nil] at hlen; omega
  rcases cs with _ | ⟨c7, cs⟩
  · simp only [List.length_cons, List.length_nil] at hlen; omega
  rcases cs with _ | ⟨c8, cs⟩
  · simp only [List.all_cons, Bool.and_eq_true, List.all_nil] at hhex'
    exact compactTarget_round_trip_aux c0 c1 c2 c3 c4 c5 c6 c7
      hhex'.1 hhex'.2.1 hhex'.2.2.1 hhex'.2.2.2.1 hhex'.2.2.2.2.1
      hhex'.2.2.2.2.2.1 hhex'.2.2.2.2.2.2.1 hhex'.2.2.2.2.2.2.2.1
  · simp only [List.length_cons] at hlen; omega

/-- Witness for C5: the compact target hex string 0000FFFF decodes and
re-encodes to its lowercase form 0000ffff. -/
theorem compact_target_round_trip_witness :
    ("0000FFFF" : String).length = 8 ∧
    ("0000FFFF" : String).data.all isHexDigitChar = true ∧
    (fromUnprefixedHex "0000FFFF").map serializeCompactTarget =
      some (lowerStr "0000FFFF") :=
  ⟨by decide, by decide,
   compact_target_round_trip "0000FFFF" (by decide) (by decide)⟩

/-- C1: the witness for literal 1 deserializes from wire value 1 and its
associated getblock response type is the rich Block object, while
deserializing any U8Witness type from a wire value outside its single
accepted literal, such as 5, fails with a decode error. -/
theorem u8_witness_decode_and_resolution :
    deserializeU8Witness1 (Json.num 1) = some () ∧
    getBlockVerbosityResponse 1 = some GetBlockResponseType.richBlock ∧
    deserializeU8Witness2 (Json.num 5) = none ∧
    deserializeU8Witness0 (Json.num 5) = none ∧
    deserializeU8Witness1 (Json.num 5) = none :=
  ⟨rfl, rfl, rfl, rfl, rfl⟩

/-- C2: the getblock verbosity-to-response mapping is exactly: witness 0 to
the consensus-binary-encoded block (hex-decoded via the consensus codec),
witness 1 to the rich Block object, and no response type for any other
value; each witness value has exactly one associated response type. -/
theorem getblock_verbosity_mapping :
    getBlockVerbosityResponse 0 =
        some GetBlockResponseType.consensusEncodedBlock ∧
    getBlockVerbosityResponse 1 = some GetBlockResponseType.richBlock ∧
    ∀ n : Nat, 2 ≤ n → getBlockVerbosityResponse n = none := by
  refine ⟨rfl, rfl, ?_⟩
  intro n hn
  rcases n with _ | _ | n
  · exact absurd hn (by decide)
  · exact absurd hn (by decide)
  · rfl

/-- Witness for C2: the mapping has no entry at witness value 2. -/
theorem getblock_verbosity_mapping_witness :
    getBlockVerbosityResponse 2 = none :=
  getblock_verbosity_mapping.2.2 2 (by decide)

/-- C3: the getrawmempool parameter-to-response table assigns exactly one
response type to each legal combination of the verbose and mempool_sequence
boolean witnesses: (false, false) to the transaction-id list, (false, true)
to the id list with a sequence counter, (true, false) to the id-to-detail
map; the remaining pair (true, true) has no impl and is not legal. -/
theorem getrawmempool_response_mapping :
    getRawMempoolResponse false false = some RawMempoolResponseType.txidList ∧
    getRawMempoolResponse false true =
        some RawMempoolResponseType.txidListWithSequence ∧
    getRawMempoolResponse true false =
        some RawMempoolResponseType.txidToDetailMap ∧
    getRawMempoolResponse true true = none :=
  ⟨rfl, rfl, rfl, rfl⟩

theorem optMapM_append_none {α β : Type} (f : α → Option β) (x : α)
    (hx : f x = none) :
    ∀ pre post : List α, optMapM f (pre ++ x :: post) = none := by
  intro pre post
  induction pre with
  | nil => simp [optMapM, hx]
  | cons p pre ih =>
    simp only [List.cons_append, optMapM]
    cases hp : f p with
    | none => rfl
    | some y => simp [List.append_eq, ih]

theorem optMapM_length {α β : Type} (f : α → Option β) :
    ∀ (xs : List α) (ys : List β), optMapM f xs = some ys →
      ys.length = xs.length
  | [], ys, h => by
    simp only [optMapM, Option.some.injEq] at h
    subst h; rfl
  | x :: xs, ys, h => by
    simp only [optMapM] at h
    cases hx : f x with
    | none => rw [hx] at h; cases h
    | some y =>
      rw [hx] at h
      rcases Option.map_eq_some'.mp h with ⟨tail, htail, rfl⟩
      simp [optMapM_length f xs tail htail]

theorem optMapM_get {α β : Type} (f : α → Option β) :
    ∀ (xs : List α) (ys : List β), optMapM f xs = some ys →
      ∀ (i : Nat) (hi : i < xs.length) (hr : i < ys.length),
        f (xs.get ⟨i, hi⟩) = some (ys.get ⟨i, hr⟩)
  | [], _, h => by
    intro i hi hr
    simp at hi
  | x :: xs, ys, h => by
    simp only [optMapM] at h
    cases hx : f x with
    | none => rw [hx] at h; cases h
    | some y =>
      rw [hx] at h
      rcases Option.map_eq_some'.mp h with ⟨tail, htail, rfl⟩
      intro i hi hr
      cases i with
      | zero => simpa using hx
      | succ i =>
        exact optMapM_get f xs tail htail i (by simpa using hi)
          (by simpa using hr)

theorem decodeCommitmentEntry_none {fields : List (String × Json)}
    (h : decodeBlockCommitment fields = none) :
    decodeCommitmentEntry (Json.obj fields) = none := by
  simp only [decodeCommitmentEntry, h]
  cases hl : lookupField fields "txout" with
  | none => rfl
  | some v =>
    cases hv : asU32 v with
    | none => simp [hv]
    | some t => simp [hv]

/-- C6: decoding a commitment record whose type discriminant is outside the
closed six-variant set fails with an unknown-variant error, and the failure
propagates: a commitment array containing such a record fails as a whole
rather than the record being skipped or dropped from the result list. -/
theorem unknown_commitment_tag_fails (fields : List (String × Json))
    (tag : String)
    (htag : lookupField fields "type" = some (Json.str tag))
    (hunk : tag ∉ ["BMM h*", "SCDB update bytes", "Sidechain activation ack",
      "Sidechain proposal", "Withdrawal bundle hash", "Witness commitment"]) :
    decodeBlockCommitment fields = none ∧
    ∀ pre post : List Json,
      decodeBlockCommitments (Json.arr (pre ++ Json.obj fields :: post)) =
        none := by
  simp only [List.mem_cons, List.mem_singleton, not_or] at hunk
  obtain ⟨n1, n2, n3, n4, n5, n6⟩ :
      tag ≠ "BMM h*" ∧ tag ≠ "SCDB update bytes" ∧
      tag ≠ "Sidechain activation ack" ∧ tag ≠ "Sidechain proposal" ∧
      tag ≠ "Withdrawal bundle hash" ∧ tag ≠ "Witness commitment" := by
    tauto
  have hone : decodeBlockCommitment fields = none := by
    unfold decodeBlockCommitment
    rw [htag]
    simp [asStr, n1, n2, n3, n4, n5, n6]
  refine ⟨hone, fun pre post => ?_⟩
  unfold decodeBlockCommitments
  exact optMapM_append_none decodeCommitmentEntry (Json.obj fields)
    (decodeCommitmentEntry_none hone) pre post

/-- Witness for C6: a record with the unrecognized discriminant Future
commitment fails to decode, alone and inside an array. -/
theorem unknown_commitment_tag_fails_witness :
    decodeBlockCommitment
      [("txout", Json.num 0), ("type", Json.str "Future commitment")] =
        none ∧
    decodeBlockCommitments (Json.arr [Json.obj
      [("txout", Json.num 0), ("type", Json.str "Future commitment")]]) =
        none := by
  have h := unknown_commitment_tag_fails
    [("txout", Json.num 0), ("type", Json.str "Future commitment")]
    "Future commitment" rfl (by decide)
  exact ⟨h.1, h.2 [] []⟩

/-- C7: decoding a tagged commitment array preserves element order and each
element's txout index verbatim: the example input decodes to the ordered
pair list [(2, SidechainProposal), (0, WitnessCommitment)], and in general
the i-th decoded pair is exactly the decode of the i-th source record, with
no deduplication. -/
theorem commitment_array_order_preserved :
    decodeBlockCommitments (Json.arr commitmentExampleItems) =
      some [(2, BlockCommitment.sidechainProposal),
        (0, BlockCommitment.witnessCommitment "6a24...")] ∧
    ∀ (items : List Json) (res : List (Nat × BlockCommitment)),
      decodeBlockCommitments (Json.arr items) = some res →
      res.length = items.length ∧
      ∀ (i : Nat) (hi : i < items.length) (hr : i < res.length),
        decodeCommitmentEntry (items.get ⟨i, hi⟩) =
          some (res.get ⟨i, hr⟩) := by
  constructor
  · rfl
  · intro items res h
    have h' : optMapM decodeCommitmentEntry items = some res := h
    exact ⟨optMapM_length _ items res h', optMapM_get _ items res h'⟩

/-- Witness for C7: the order-preservation part applied at index 0 of the
example array. -/
theorem commitment_array_order_preserved_witness :
    decodeCommitmentEntry (Json.obj [("txout", Json.num 2),
        ("type", Json.str "Sidechain proposal")]) =
      some (2, BlockCommitment.sidechainProposal) :=
  (commitment_array_order_preserved.2 commitmentExampleItems
    [(2, BlockCommitment.sidechainProposal),
      (0, BlockCommitment.witnessCommitment "6a24...")]
    commitment_array_order_preserved.1).2 0 (by decide) (by decide)

/-- C9: in a BMM h* record, decoding reverses only the 32-byte h commitment
field (reversed hex) and leaves the 4-byte prevbytes previous-block-hash
prefix in wire order (plain hex); reversal is per-field, not uniform. -/
theorem bmm_hstar_per_field_reversal (hBytes pBytes : List Nat) (sid : Nat)
    (hh : hBytes.length = 32) (hhb : ∀ b ∈ hBytes, b < 256)
    (hp : pBytes.length = 4) (hpb : ∀ b ∈ pBytes, b < 256)
    (hs : sid < 256) :
    decodeBlockCommitment
      [("type", Json.str "BMM h*"), ("h", Json.str (hexEncode hBytes)),
       ("nsidechain", Json.num (sid : Int)),
       ("prevbytes", Json.str (hexEncode pBytes))] =
      some (BlockCommitment.bmmHStar hBytes.reverse sid pBytes) := by
  have h1 : deserializeReverseHex32 (hexEncode hBytes) =
      some hBytes.reverse :=
    deserializeReverseHex32_some (hexDecode_hexEncode hhb) hh
  have h2 : fromHex4 (hexEncode pBytes) = some pBytes := by
    unfold fromHex4
    rw [hexDecode_hexEncode hpb]
    simp [hp]
  have h3 : asU8 (Json.num (sid : Int)) = some sid := by
    show (if 0 ≤ (sid : Int) ∧ (sid : Int) < 256 then
      some (sid : Int).toNat else none) = some sid
    rw [if_pos ⟨Int.natCast_nonneg sid, by exact_mod_cast hs⟩]
    simp
  unfold decodeBlockCommitment
  simp [lookupField, asStr, h1, h2, h3]

/-- Witness for C9: a concrete BMM h* record decodes with the h field
byte-reversed and the prevbytes field in wire order. -/
theorem bmm_hstar_per_field_reversal_witness :
    decodeBlockCommitment
      [("type", Json.str "BMM h*"),
       ("h", Json.str (hexEncode (List.range 32))),
       ("nsidechain", Json.num ((1 : Nat) : Int)),
       ("prevbytes", Json.str (hexEncode [0, 17, 34, 51]))] =
      some (BlockCommitment.bmmHStar (List.range 32).reverse 1
        [0, 17, 34, 51]) :=
  bmm_hstar_per_field_reversal (List.range 32) [0, 17, 34, 51] 1
    (by decide) (by decide) (by decide) (by decide) (by decide)

/-- C8: the decimal-amount codec decodes the wire amount string 1.50000000
to 150000000 satoshis, and re-encodes 150000000 satoshis to the identical
fixed 8-decimal string. -/
theorem amount_codec_example :
    btcStringToSats "1.50000000" = some 150000000 ∧
    satsToBtcString 150000000 = "1.50000000" :=
  ⟨rfl, rfl⟩

/-- C10: decoding a header object whose previousblockhash field is absent
succeeds with the previous-block-hash set to the all-zeros hash, while
removing any other required field makes the decode fail. -/
theorem header_missing_prev_blockhash_defaults :
    (decodeHeader headerExampleFields).isSome = true ∧
    (decodeHeader headerExampleFields).map Header.prev_blockhash =
      some allZerosHash ∧
    (["hash", "height", "version", "merkleroot", "time", "bits",
        "nonce"].all
      fun f => (decodeHeader (removeField f headerExampleFields)).isNone)
      = true :=
  ⟨rfl, rfl, rfl⟩
